import Mathlib

/-!
Verification of the BitTorrent-Me download engine against its specification.

The embedding below translates the Python sources of the repository into Lean:

* `src/src/models/torrent.py` — `Piece`, `TorrentFile`, `TorrentInfo`;
* `src/src/services/torrent_service.py` and the identical inline parser in
  `src/app.py` (`BitTorrentClient.parse_torrent`) — `mkPieces`, `mkFiles`,
  `parse_torrent`;
* `src/src/models/download.py` — the state classes (`StoppedState`,
  `DownloadingState`, `PausedState`, `CompletedState`), `Download.start_download`,
  `Download.save_state`, `Download.load_state`;
* `src/src/core/download_worker.py` — `DownloadWorker.start` and the piece loop
  `DownloadWorker._download_worker` / `_download_piece`;
* `src/app.py` — the monolithic piece loop `Download._async_download_worker`
  and `Download._write_files_with_real_data`;
* `src/app.py` / `src/src/services/download_service.py` — the registry check in
  `BitTorrentClient.parse_torrent` / `DownloadService.create_download`.

Python `bytes` values are modelled as `List Nat`; Python `float` arithmetic on
progress/speed is modelled exactly over `ℚ`; Python `set` is `Finset Nat`;
Python `dict` (insertion ordered, last write wins) is an association list
with an explicit replacing insert.
-/

namespace BitTorrentMe

/-- A piece of the torrent (`src/src/models/torrent.py`, class `Piece`).
`data` is omitted: no claim mentions it. -/
structure Piece where
  index : Nat
  size : Nat
  hash : List Nat
  downloaded : Bool := false
deriving DecidableEq

/-- A file within a torrent (`src/src/models/torrent.py`, class `TorrentFile`). -/
structure TFile where
  path : String
  length : Nat
  offset : Nat := 0
  downloaded : Bool := false
  selected : Bool := true
deriving DecidableEq

/-- A member of the decoded `info[b'files']` list: a path (list of segments)
and a length. -/
structure FileInfo where
  path : List String
  length : Nat
deriving DecidableEq

/-- The decoded `info` dictionary of a torrent file, after bencode decoding.
Every field the parser reads is optional, mirroring `KeyError` behaviour of
Python dictionary indexing (a missing key raises, which the parser catches). -/
structure InfoDict where
  pieceLength : Option Nat
  pieces : Option (List Nat)
  name : Option String
  length : Option Nat
  files : Option (List FileInfo)
deriving DecidableEq

/-- Result of parsing (`src/src/models/torrent.py`, class `TorrentInfo`).
The `info_hash` field is not modelled (SHA-1 of the re-encoded info dict);
no claim depends on its value. -/
structure TorrentInfoM where
  name : String
  totalSize : Nat
  pieceLength : Nat
  pieces : List Piece
  files : List TFile
  isMultiFile : Bool
deriving DecidableEq

/-- `num_pieces = math.ceil(total_size / piece_length)`
(`torrent_service.py` line 51, `app.py` line 864). Python's `math.ceil` over
the exact ratio is the natural-number ceiling division `(t + pl - 1) / pl`. -/
def numPieces (totalSize pieceLength : Nat) : Nat :=
  (totalSize + pieceLength - 1) / pieceLength

/-- The piece-building loop of `TorrentService.parse_torrent` (lines 54-64)
and `BitTorrentClient.parse_torrent` (`app.py` lines 866-877):
`piece_hash = pieces_hash[i*20 : i*20+20]` (a Python slice, which silently
truncates past the end of the string) and
`piece_size = min(piece_length, total_size - i*piece_length)`. -/
def mkPieces (totalSize pieceLength : Nat) (piecesHash : List Nat) : List Piece :=
  (List.range (numPieces totalSize pieceLength)).map fun i =>
    { index := i
      size := min pieceLength (totalSize - i * pieceLength)
      hash := (piecesHash.drop (i * 20)).take 20 }

/-- The file-building loop of `TorrentService.parse_torrent` (lines 67-82) and
`Download.add_files` (`download.py` lines 181-196, `app.py` lines 252-267):
a running prefix-sum offset starting at 0. -/
def mkFilesAux : Nat → List FileInfo → List TFile
  | _, [] => []
  | off, f :: rest =>
      { path := String.intercalate "/" f.path
        length := f.length
        offset := off } :: mkFilesAux (off + f.length) rest

/-- `Download.add_files` / the parser's file loop, started at offset 0. -/
def mkFiles (fs : List FileInfo) : List TFile := mkFilesAux 0 fs

/-- `TorrentService.parse_torrent` (lines 26-99), modelled after bencode
decoding.  The argument is `none` when the outer dictionary has no `info` key
(`torrent_data[b'info']` raises `KeyError`, caught to return `None`).
Failure cases, all collapsing to `none` through the catch-all handler:
missing `piece length` or `pieces`, single-file with missing `length`, and
`piece_length = 0` (`math.ceil(total_size / 0)` raises `ZeroDivisionError`).
A missing `name` does NOT fail: the code falls back to
`'multi_file_torrent'` or the file stem.  Note that nothing checks the length
of the `pieces` byte string. -/
def parse_torrent (torrentData : Option InfoDict) (stem : String) : Option TorrentInfoM :=
  match torrentData with
  | none => none
  | some info =>
    match info.pieceLength, info.pieces with
    | some pl, some ph =>
      match info.files with
      | some fs =>
          if pl = 0 then none
          else some
            { name := info.name.getD "multi_file_torrent"
              totalSize := (fs.map FileInfo.length).sum
              pieceLength := pl
              pieces := mkPieces (fs.map FileInfo.length).sum pl ph
              files := mkFiles fs
              isMultiFile := true }
      | none =>
          match info.length with
          | some l =>
              if pl = 0 then none
              else some
                { name := info.name.getD stem
                  totalSize := l
                  pieceLength := pl
                  pieces := mkPieces l pl ph
                  files := []
                  isMultiFile := false }
          | none => none
    | _, _ => none

/-! ## State machine (`src/src/models/download.py` lines 52-138) -/

/-- The four states of the state pattern. -/
inductive StateTag
  | stopped
  | downloading
  | paused
  | completed
deriving DecidableEq

/-- The four events a state class handles. -/
inductive Event
  | start
  | pause
  | resume
  | stop
deriving DecidableEq

/-- The mutable fields of the `Download` aggregate
(`src/src/models/download.py`, class `Download`) that the claims touch. -/
structure DownloadSt where
  stateTag : StateTag
  downloading : Bool
  paused : Bool
  completed : Bool
  downloadedPieces : Finset Nat
  downloadedSize : Nat
  downloadProgress : ℚ
  startTime : Option ℚ
  files : List TFile
  pieces : List Piece
deriving DecidableEq

/-- `StoppedState.start` / `DownloadingState.start` / `PausedState.start` /
`CompletedState.start`: only `StoppedState` transitions (setting
`downloading = True`, `paused = False`); every other state returns `False`
without touching the download. -/
def stateStart (d : DownloadSt) : Bool × DownloadSt :=
  match d.stateTag with
  | .stopped =>
      (true, { d with stateTag := .downloading, downloading := true, paused := false })
  | .downloading => (false, d)
  | .paused => (false, d)
  | .completed => (false, d)

/-- The `pause` method of each state class: only `DownloadingState` transitions. -/
def statePause (d : DownloadSt) : Bool × DownloadSt :=
  match d.stateTag with
  | .downloading => (true, { d with stateTag := .paused, paused := true })
  | _ => (false, d)

/-- The `resume` method of each state class: only `PausedState` transitions. -/
def stateResume (d : DownloadSt) : Bool × DownloadSt :=
  match d.stateTag with
  | .paused => (true, { d with stateTag := .downloading, paused := false })
  | _ => (false, d)

/-- The `stop` method of each state class: `DownloadingState` and `PausedState`
transition to `StoppedState`; the others return `False`. -/
def stateStop (d : DownloadSt) : Bool × DownloadSt :=
  match d.stateTag with
  | .downloading =>
      (true, { d with stateTag := .stopped, downloading := false, paused := false })
  | .paused =>
      (true, { d with stateTag := .stopped, downloading := false, paused := false })
  | _ => (false, d)

/-- Dispatch of an event to the current state object (the state pattern's
virtual call `self.state.<event>(self)`). -/
def applyEvent : Event → DownloadSt → Bool × DownloadSt
  | .start => stateStart
  | .pause => statePause
  | .resume => stateResume
  | .stop => stateStop

/-- The transition table exactly as the specification lists it (spec section
4.2): this definition is written from the SPEC's words, to be compared with
`applyEvent`, which is written from the code. -/
def specTransitionTable : StateTag → Event → Option StateTag
  | .stopped, .start => some .downloading
  | .downloading, .pause => some .paused
  | .downloading, .stop => some .stopped
  | .paused, .resume => some .downloading
  | .paused, .stop => some .stopped
  | _, _ => none

/-- `Download.start_download` (`download.py` lines 278-284): an already
completed download returns `True` immediately, otherwise the state object
decides. -/
def start_download (d : DownloadSt) : Bool × DownloadSt :=
  if d.completed then (true, d) else stateStart d

/-- The three worker flags of `DownloadWorker` (`download_worker.py`). -/
structure WorkerFlags where
  running : Bool
  paused : Bool
  stopped : Bool
deriving DecidableEq

/-- `DownloadWorker.start` (`download_worker.py` lines 30-45).  Returns
`(result, new flags, new download, whether a scheduler task was created)`.
When `download.completed` the method returns `True` before touching any
state and before `asyncio.create_task`; otherwise it resets the flags, sets
`download.start_time = now` and launches `_download_worker`. -/
def workerStart (w : WorkerFlags) (d : DownloadSt) (now : ℚ) :
    Bool × WorkerFlags × DownloadSt × Bool :=
  if d.completed then (true, w, d, false)
  else
    (true, { running := true, paused := false, stopped := false },
     { d with startTime := some now }, true)

/-! ## Monolithic piece scheduler (`src/app.py`, `Download._async_download_worker`)

The model covers an uninterrupted run: `self.downloading` stays `True` and
`self.paused` stays `False` for the whole loop (the pause-wait and stop-abort
branches then never fire).  Batching (`Config.BATCH_SIZE`) only chunks the
same `range(0, total_pieces)` index order and triggers `save_state`, which has
no in-memory effect, so the flattened loop is modelled.  `len(piece_data)`
equals `self.pieces[i].size` because the source buffer is pre-padded to
`sum(piece.size)` and the slice `[piece_start, piece_end)` has exactly that
width. -/

/-- The in-memory state the monolithic loop mutates.  `runBytes` is the LOCAL
variable `downloaded_size` of `_async_download_worker`, initialised to 0 at
the start of every run (line 433); `downloadedSize` is the field
`self.downloaded_size`. -/
structure RunSt where
  downloadedPieces : Finset Nat
  downloadedSize : Nat
  runBytes : Nat
  progress : ℚ
  completed : Bool
deriving DecidableEq

/-- One iteration of the inner loop of `_async_download_worker`
(`app.py` lines 450-495): indices already in `downloaded_pieces` are skipped
(`continue`); otherwise the piece is recorded: the index is added to the set,
the local byte counter grows by the piece size, `self.downloaded_size` is
assigned the local counter, and when `total_size_to_download > 0` the
progress becomes `downloaded_size / total_size_to_download * 100`. -/
def processPiece (sz : Nat → Nat) (target : Nat) (st : RunSt) (i : Nat) : RunSt :=
  if i ∈ st.downloadedPieces then st
  else
    { st with
      downloadedPieces := insert i st.downloadedPieces
      runBytes := st.runBytes + sz i
      downloadedSize := st.runBytes + sz i
      progress :=
        if 0 < target then ((st.runBytes + sz i : Nat) : ℚ) / (target : ℚ) * 100
        else st.progress }

/-- The flattened piece loop over indices `0, 1, ..., n-1`. -/
def runWorkerLoop (sz : Nat → Nat) (target n : Nat) (st : RunSt) : RunSt :=
  (List.range n).foldl (processPiece sz target) st

/-- The loop followed by the completion check of `_async_download_worker`
(`app.py` line 504): `if len(self.downloaded_pieces) == total_pieces:` the
files are written and `self.completed = True`; `download_progress` is NOT
touched there. -/
def runWorker (sz : Nat → Nat) (target n : Nat) (st : RunSt) : RunSt :=
  let fin := runWorkerLoop sz target n st
  if fin.downloadedPieces.card = n then { fin with completed := true } else fin

/-! ## Layered piece scheduler (`src/src/core/download_worker.py`) -/

/-- The state the layered `DownloadWorker._download_worker` loop mutates.
`downloadedCount` is the local variable `downloaded_count`, initialised to 0
each run. -/
structure WSt where
  downloadedPieces : Finset Nat
  downloadedSize : Nat
  downloadedCount : Nat
  progress : ℚ
deriving DecidableEq

/-- One iteration of the layered worker's piece loop
(`download_worker.py` lines 83-107 together with `_download_piece`,
lines 122-143).  There is NO skip of already-downloaded indices: every piece
of `self.download.pieces` is processed.  `_download_piece` adds `piece.size`
to `self.download.downloaded_size`; then the loop increments
`downloaded_count`, inserts the index and sets
`download_progress = downloaded_count / total_pieces * 100`. -/
def wProcessPiece (totalPieces : Nat) (st : WSt) (p : Piece) : WSt :=
  { downloadedPieces := insert p.index st.downloadedPieces
    downloadedSize := st.downloadedSize + p.size
    downloadedCount := st.downloadedCount + 1
    progress := ((st.downloadedCount + 1 : Nat) : ℚ) / (totalPieces : ℚ) * 100 }

/-- The layered worker's full uninterrupted piece loop. -/
def wRunLoop (pieces : List Piece) (st : WSt) : WSt :=
  pieces.foldl (wProcessPiece pieces.length) st

/-! ## Persistence (`src/src/models/download.py`, `save_state` / `load_state`) -/

/-- Python `dict` assignment `d[k] = v`: replace in place when the key exists
(keeping insertion order), otherwise append. -/
def dictInsert (k : String) (v : Bool) (d : List (String × Bool)) : List (String × Bool) :=
  if d.any (fun kv => kv.1 == k) then
    d.map (fun kv => if kv.1 == k then (kv.1, v) else kv)
  else d ++ [(k, v)]

/-- Python `d[k]` / `k in d` lookup on the association-list dict model. -/
def dictLookup (d : List (String × Bool)) (k : String) : Option Bool :=
  (d.find? (fun kv => kv.1 == k)).map (fun kv => kv.2)

/-- The dict comprehension `{file.path: file.selected for file in self.files}`
of `save_state` (line 242): later files overwrite earlier files that share a
path. -/
def buildFileSelections (files : List TFile) : List (String × Bool) :=
  files.foldl (fun d f => dictInsert f.path f.selected d) []

/-- The JSON object written by `Download.save_state` (lines 239-253). -/
structure SavedState where
  downloaded_pieces : List Nat
  downloaded_size : Nat
  completed : Bool
  file_selections : List (String × Bool)
  timestamp : ℚ
deriving DecidableEq

/-- `Download.save_state` (lines 239-253): `list(self.downloaded_pieces)`
serialises the set (modelled as the sorted enumeration; the set does not
record an order), plus the byte count, the completed flag, the
path-to-selected dict and a timestamp. -/
def save_state (d : DownloadSt) (now : ℚ) : SavedState :=
  { downloaded_pieces := d.downloadedPieces.sort (· ≤ ·)
    downloaded_size := d.downloadedSize
    completed := d.completed
    file_selections := buildFileSelections d.files
    timestamp := now }

/-- `Download.load_state` (lines 218-237), for a state file that exists:
`downloaded_pieces = set(...)`, `downloaded_size`, `completed` are restored;
each file whose path occurs in `file_selections` gets its `selected` flag
from the dict; finally
`download_progress = len(downloaded_pieces) / len(pieces) * 100`
(0 when the piece list is empty). -/
def load_state (d : DownloadSt) (s : SavedState) : DownloadSt :=
  { d with
    downloadedPieces := s.downloaded_pieces.toFinset
    downloadedSize := s.downloaded_size
    completed := s.completed
    files := d.files.map fun f =>
      match dictLookup s.file_selections f.path with
      | some b => { f with selected := b }
      | none => f
    downloadProgress :=
      if d.pieces.isEmpty then 0
      else ((s.downloaded_pieces.toFinset.card : Nat) : ℚ) / (d.pieces.length : ℚ) * 100 }

/-- A `Download` freshly constructed from the same descriptor as `d`
(`Download.__init__` lines 144-179 followed by `add_files`): the same piece
list and the same file records with the constructor defaults
`selected = True`, `downloaded = False`; all progress fields at their
initial values. -/
def freshDownload (d : DownloadSt) : DownloadSt :=
  { stateTag := .stopped
    downloading := false
    paused := false
    completed := false
    downloadedPieces := ∅
    downloadedSize := 0
    downloadProgress := 0
    startTime := none
    files := d.files.map fun f => { f with selected := true, downloaded := false }
    pieces := d.pieces }

/-! ## File assembly (`src/app.py`, `Download._write_files_with_real_data`) -/

/-- The multi-file branch of `_write_files_with_real_data`
(`app.py` lines 691-719).  The whole `for` loop sits inside one
`try`/`except`: a raising write for one file aborts the remaining iterations
(the exception is caught and logged OUTSIDE the loop).  `fails p` models
"writing the file at path `p` raises".  The result is the list of paths
actually written, in order.  (`FileService.write_files`,
`file_service.py` lines 250-278, has the same single-`try`-around-the-loop
shape.) -/
def writeFilesReal (fails : String → Bool) : List TFile → List String
  | [] => []
  | f :: rest =>
      if f.selected then
        if fails f.path then []
        else f.path :: writeFilesReal fails rest
      else writeFilesReal fails rest

/-! ## Client registry (`src/app.py`, `BitTorrentClient.parse_torrent`) -/

/-- Python dict lookup on the `self.downloads` registry, keyed by torrent id. -/
def lookupD (reg : List (String × DownloadSt)) (tid : String) : Option DownloadSt :=
  (reg.find? (fun kv => kv.1 == tid)).map (fun kv => kv.2)

/-- `BitTorrentClient.parse_torrent` (`app.py` lines 832-901), with
`DownloadService.create_download` (lines 39-78) sharing the same
registry-hit shape.  The id computation
`sha1(bencode(info)).hexdigest()[:16]` is a pure function of the info
dictionary, abstracted as the parameter `idOf`; the `Download` construction
(which also touches the disk via `load_state`) is abstracted as `mkDownload`.
When the id already sits in the registry the function returns
`(tid, True)` at line 845, BEFORE any piece parsing or `Download`
construction, leaving the registry untouched. -/
def client_parse_torrent (idOf : InfoDict → String)
    (mkDownload : String → TorrentInfoM → DownloadSt)
    (reg : List (String × DownloadSt)) (torrentData : Option InfoDict) (stem : String) :
    Option String × Bool × List (String × DownloadSt) :=
  match torrentData with
  | none => (none, false, reg)
  | some info =>
      let tid := idOf info
      match lookupD reg tid with
      | some _ => (some tid, true, reg)
      | none =>
          match parse_torrent (some info) stem with
          | none => (none, false, reg)
          | some t => (some tid, true, reg ++ [(tid, mkDownload tid t)])

/-! ## Sample data used by witnesses and counterexamples -/

/-- A completed download, used to witness the `start`-on-completed claims. -/
def sampleCompleted : DownloadSt :=
  { stateTag := .completed
    downloading := false
    paused := false
    completed := true
    downloadedPieces := {0, 1}
    downloadedSize := 8
    downloadProgress := 100
    startTime := none
    files := []
    pieces := [] }

/-- A download whose two files share the same path with different `selected`
flags; used against the save/load round trip. -/
def c6Dup : DownloadSt :=
  { stateTag := .stopped
    downloading := false
    paused := false
    completed := false
    downloadedPieces := ∅
    downloadedSize := 0
    downloadProgress := 0
    startTime := none
    files :=
      [{ path := "a", length := 1, offset := 0, downloaded := false, selected := false },
       { path := "a", length := 1, offset := 1, downloaded := false, selected := true }]
    pieces := [] }

/-- A partially downloaded two-file download with distinct paths and
non-default `selected` flags; used to witness the save/load round trip. -/
def c6Good : DownloadSt :=
  { stateTag := .stopped
    downloading := false
    paused := false
    completed := true
    downloadedPieces := {2}
    downloadedSize := 7
    downloadProgress := 0
    startTime := none
    files :=
      [{ path := "a", length := 3, offset := 0, downloaded := true, selected := false },
       { path := "d/b", length := 5, offset := 3, downloaded := false, selected := true }]
    pieces := [] }

/-- Metadata whose `pieces` string has 5 bytes: not a multiple of 20 and
shorter than `numPieces * 20 = 20`. -/
def c7Info : InfoDict :=
  { pieceLength := some 16384
    pieces := some [1, 2, 3, 4, 5]
    name := some "f.txt"
    length := some 10
    files := none }

/-- A two-file multi-file torrent used to witness the offset invariants. -/
def c8Info : InfoDict :=
  { pieceLength := some 4
    pieces := some []
    name := some "t"
    length := none
    files := some [⟨["a"], 3⟩, ⟨["d", "b"], 5⟩] }

/-- The descriptor `parse_torrent` produces for `c8Info`. -/
def c8T : TorrentInfoM :=
  { name := "t"
    totalSize := 8
    pieceLength := 4
    pieces := mkPieces 8 4 []
    files := mkFiles [⟨["a"], 3⟩, ⟨["d", "b"], 5⟩]
    isMultiFile := true }

/-! ## Theorems -/

theorem numPieces_eq_ceilDiv (t pl : Nat) : numPieces t pl = t ⌈/⌉ pl := rfl

theorem le_mul_numPieces (t pl : Nat) (hpl : 0 < pl) : t ≤ pl * numPieces t pl := by
  have h : t ⌈/⌉ pl ≤ numPieces t pl := (numPieces_eq_ceilDiv t pl).symm.le
  exact (ceilDiv_le_iff_le_mul hpl).1 h

theorem numPieces_pos (t pl : Nat) (hpl : 0 < pl) (ht : 0 < t) : 0 < numPieces t pl := by
  rcases Nat.eq_zero_or_pos (numPieces t pl) with h0 | h0
  · have := le_mul_numPieces t pl hpl
    rw [h0, Nat.mul_zero] at this
    omega
  · exact h0

theorem mul_numPieces_pred_lt (t pl : Nat) (hpl : 0 < pl) (ht : 0 < t) :
    pl * (numPieces t pl - 1) < t := by
  by_contra h
  push_neg at h
  have h2 : t ⌈/⌉ pl ≤ numPieces t pl - 1 := (ceilDiv_le_iff_le_mul hpl).2 h
  rw [← numPieces_eq_ceilDiv] at h2
  have h3 := numPieces_pos t pl hpl ht
  omega

theorem numPieces_zero (pl : Nat) (hpl : 0 < pl) : numPieces 0 pl = 0 := by
  unfold numPieces
  exact Nat.div_eq_of_lt (by omega)

theorem numPieces_eq_ceil (t pl : Nat) (hpl : 0 < pl) :
    (numPieces t pl : ℤ) = ⌈(t : ℚ) / (pl : ℚ)⌉ := by
  have hplq : (0 : ℚ) < (pl : ℚ) := by exact_mod_cast hpl
  rcases Nat.eq_zero_or_pos t with rfl | ht
  · simp [numPieces_zero pl hpl]
  · symm
    rw [Int.ceil_eq_iff]
    have hn := numPieces_pos t pl hpl ht
    constructor
    · have h := mul_numPieces_pred_lt t pl hpl ht
      have hq : ((numPieces t pl - 1 : ℕ) : ℚ) < (t : ℚ) / (pl : ℚ) := by
        rw [lt_div_iff₀ hplq]
        exact_mod_cast
          (calc (numPieces t pl - 1) * pl = pl * (numPieces t pl - 1) := by ring
            _ < t := h)
      calc ((numPieces t pl : ℤ) : ℚ) - 1 = ((numPieces t pl - 1 : ℕ) : ℚ) := by
            push_cast [Nat.cast_sub hn]
            ring
        _ < (t : ℚ) / (pl : ℚ) := hq
    · rw [div_le_iff₀ hplq]
      exact_mod_cast
        (calc t ≤ pl * numPieces t pl := le_mul_numPieces t pl hpl
          _ = numPieces t pl * pl := by ring)

theorem mkPieces_length (t pl : Nat) (ph : List Nat) :
    (mkPieces t pl ph).length = numPieces t pl := by
  simp [mkPieces]

theorem mkPieces_get (t pl : Nat) (ph : List Nat) (i : Nat)
    (h : i < (mkPieces t pl ph).length) :
    (mkPieces t pl ph).get ⟨i, h⟩ =
      { index := i
        size := min pl (t - i * pl)
        hash := (ph.drop (i * 20)).take 20 } := by
  simp [mkPieces, List.get_eq_getElem]

/-- C1: for every valid parsed torrent the parser produces exactly
`ceil(totalSize / pieceLength)` pieces, every piece except possibly the last
has size `pieceLength`, and the last piece's size is
`totalSize - (numPieces - 1) * pieceLength`. -/
theorem C1_piece_layout (t pl : Nat) (ph : List Nat) (hpl : 0 < pl) :
    (mkPieces t pl ph).length = numPieces t pl ∧
    ((numPieces t pl : ℤ) = ⌈(t : ℚ) / (pl : ℚ)⌉) ∧
    (∀ i (h : i < (mkPieces t pl ph).length), i + 1 < numPieces t pl →
        ((mkPieces t pl ph).get ⟨i, h⟩).size = pl) ∧
    (0 < t → ∀ h : numPieces t pl - 1 < (mkPieces t pl ph).length,
        ((mkPieces t pl ph).get ⟨numPieces t pl - 1, h⟩).size
          = t - (numPieces t pl - 1) * pl) := by
  refine ⟨mkPieces_length t pl ph, numPieces_eq_ceil t pl hpl, ?_, ?_⟩
  · intro i h hi
    rw [mkPieces_get]
    have ht : 0 < t := by
      rcases Nat.eq_zero_or_pos t with rfl | ht
      · rw [numPieces_zero pl hpl] at hi; omega
      · exact ht
    have h1 : pl * (i + 1) ≤ pl * (numPieces t pl - 1) :=
      Nat.mul_le_mul_left pl (by omega)
    have h2 : pl * (numPieces t pl - 1) < t := mul_numPieces_pred_lt t pl hpl ht
    have key : pl + i * pl ≤ t := by
      calc pl + i * pl = pl * (i + 1) := by ring
        _ ≤ pl * (numPieces t pl - 1) := h1
        _ ≤ t := le_of_lt h2
    exact min_eq_left (Nat.le_sub_of_add_le key)
  · intro ht h
    rw [mkPieces_get]
    have hn := numPieces_pos t pl hpl ht
    have hle : t ≤ pl + (numPieces t pl - 1) * pl := by
      calc t ≤ pl * numPieces t pl := le_mul_numPieces t pl hpl
        _ = pl * (numPieces t pl - 1 + 1) := by rw [Nat.sub_add_cancel hn]
        _ = pl + (numPieces t pl - 1) * pl := by ring
    exact min_eq_right (Nat.sub_le_iff_le_add.2 hle)

/-- C1 witness: a single-file torrent with `totalSize = 10`,
`pieceLength = 4` has 3 pieces; piece 0 and 1 have size 4 and piece 2 has
size `10 - 2 * 4 = 2`. -/
theorem C1_piece_layout_witness :
    0 < 4 ∧
    ((mkPieces 10 4 []).length = numPieces 10 4 ∧
     ((numPieces 10 4 : ℤ) = ⌈(10 : ℚ) / (4 : ℚ)⌉) ∧
     (∀ i (h : i < (mkPieces 10 4 []).length), i + 1 < numPieces 10 4 →
        ((mkPieces 10 4 []).get ⟨i, h⟩).size = 4) ∧
     (0 < 10 → ∀ h : numPieces 10 4 - 1 < (mkPieces 10 4 []).length,
        ((mkPieces 10 4 []).get ⟨numPieces 10 4 - 1, h⟩).size
          = 10 - (numPieces 10 4 - 1) * 4)) :=
  ⟨by decide, by exact_mod_cast C1_piece_layout 10 4 [] (by decide)⟩

/-- C2: the code's state-machine dispatch agrees with the specification's
transition table: a listed `(state, event)` pair returns `True` and moves to
the listed next state; every unlisted pair returns `False` and leaves the
whole `Download` record unchanged. -/
theorem C2_state_machine_table (d : DownloadSt) (e : Event) :
    match specTransitionTable d.stateTag e with
    | some s => (applyEvent e d).1 = true ∧ ((applyEvent e d).2).stateTag = s
    | none => applyEvent e d = (false, d) := by
  cases e <;> cases h : d.stateTag <;>
    simp [applyEvent, stateStart, statePause, stateResume, stateStop,
      specTransitionTable, h]

/-- C3: `start` on a completed `Download` is an idempotent success: it
returns `True`, spawns no scheduler task, and changes nothing — in
particular `downloadedPieces` and the progress percentage stay equal. -/
theorem C3_start_completed_idempotent (d : DownloadSt) (w : WorkerFlags) (now : ℚ)
    (h : d.completed = true) :
    start_download d = (true, d) ∧
    workerStart w d now = (true, w, d, false) ∧
    (start_download d).2.downloadedPieces = d.downloadedPieces ∧
    (start_download d).2.downloadProgress = d.downloadProgress := by
  simp [start_download, workerStart, h]

/-- C3 witness: the sample completed download. -/
theorem C3_start_completed_idempotent_witness :
    sampleCompleted.completed = true ∧
    (start_download sampleCompleted = (true, sampleCompleted) ∧
     workerStart ⟨false, false, false⟩ sampleCompleted 0
        = (true, ⟨false, false, false⟩, sampleCompleted, false) ∧
     (start_download sampleCompleted).2.downloadedPieces
        = sampleCompleted.downloadedPieces ∧
     (start_download sampleCompleted).2.downloadProgress
        = sampleCompleted.downloadProgress) :=
  ⟨rfl, C3_start_completed_idempotent sampleCompleted ⟨false, false, false⟩ 0 rfl⟩

theorem range_succ_sdiff_mem (n : Nat) (D : Finset Nat) (hn : n ∈ D) :
    Finset.range (n + 1) \ D = Finset.range n \ D := by
  ext x
  simp only [Finset.mem_sdiff, Finset.mem_range]
  constructor
  · rintro ⟨hx, hxD⟩
    rcases Nat.lt_succ_iff_lt_or_eq.1 hx with h | rfl
    · exact ⟨h, hxD⟩
    · exact absurd hn hxD
  · rintro ⟨hx, hxD⟩
    exact ⟨Nat.lt_succ_of_lt hx, hxD⟩

theorem range_succ_sdiff_not_mem (n : Nat) (D : Finset Nat) (hn : n ∉ D) :
    Finset.range (n + 1) \ D = insert n (Finset.range n \ D) := by
  ext x
  simp only [Finset.mem_sdiff, Finset.mem_range, Finset.mem_insert]
  constructor
  · rintro ⟨hx, hxD⟩
    rcases Nat.lt_succ_iff_lt_or_eq.1 hx with h | rfl
    · exact Or.inr ⟨h, hxD⟩
    · exact Or.inl rfl
  · rintro (rfl | ⟨hx, hxD⟩)
    · exact ⟨Nat.lt_succ_self _, hn⟩
    · exact ⟨Nat.lt_succ_of_lt hx, hxD⟩

theorem runWorkerLoop_succ (sz : Nat → Nat) (target n : Nat) (st : RunSt) :
    runWorkerLoop sz target (n + 1) st
      = processPiece sz target (runWorkerLoop sz target n st) n := by
  unfold runWorkerLoop
  rw [List.range_succ, List.foldl_append, List.foldl_cons, List.foldl_nil]

theorem runWorkerLoop_pieces (sz : Nat → Nat) (target n : Nat) (st : RunSt) :
    (runWorkerLoop sz target n st).downloadedPieces
      = st.downloadedPieces ∪ Finset.range n := by
  induction n with
  | zero => simp [runWorkerLoop]
  | succ n ih =>
      rw [runWorkerLoop_succ]
      by_cases hn : n ∈ st.downloadedPieces
      · have hmem : n ∈ (runWorkerLoop sz target n st).downloadedPieces := by
          rw [ih]; exact Finset.mem_union_left _ hn
        rw [processPiece, if_pos hmem, ih, Finset.range_succ, Finset.union_insert,
          Finset.insert_eq_self.2 (Finset.mem_union_left _ hn)]
      · have hmem : n ∉ (runWorkerLoop sz target n st).downloadedPieces := by
          rw [ih]
          simp [Finset.mem_union, hn]
        rw [processPiece, if_neg hmem]
        simp only []
        rw [ih, Finset.range_succ, Finset.union_insert]

theorem runWorkerLoop_runBytes (sz : Nat → Nat) (target n : Nat) (st : RunSt) :
    (runWorkerLoop sz target n st).runBytes
      = st.runBytes + ∑ i in Finset.range n \ st.downloadedPieces, sz i := by
  induction n with
  | zero => simp [runWorkerLoop]
  | succ n ih =>
      rw [runWorkerLoop_succ]
      by_cases hn : n ∈ st.downloadedPieces
      · have hmem : n ∈ (runWorkerLoop sz target n st).downloadedPieces := by
          rw [runWorkerLoop_pieces]; exact Finset.mem_union_left _ hn
        rw [processPiece, if_pos hmem, ih, range_succ_sdiff_mem n _ hn]
      · have hmem : n ∉ (runWorkerLoop sz target n st).downloadedPieces := by
          rw [runWorkerLoop_pieces]
          simp [Finset.mem_union, hn]
        have hnin : n ∉ Finset.range n \ st.downloadedPieces := by
          simp [Finset.mem_sdiff]
        rw [processPiece, if_neg hmem]
        simp only []
        rw [ih, range_succ_sdiff_not_mem n _ hn, Finset.sum_insert hnin]
        omega

theorem runWorkerLoop_size (sz : Nat → Nat) (target n : Nat) (st : RunSt) :
    (runWorkerLoop sz target n st).downloadedSize
      = if (Finset.range n \ st.downloadedPieces).Nonempty then
          st.runBytes + ∑ i in Finset.range n \ st.downloadedPieces, sz i
        else st.downloadedSize := by
  induction n with
  | zero => simp [runWorkerLoop]
  | succ n ih =>
      rw [runWorkerLoop_succ]
      by_cases hn : n ∈ st.downloadedPieces
      · have hmem : n ∈ (runWorkerLoop sz target n st).downloadedPieces := by
          rw [runWorkerLoop_pieces]; exact Finset.mem_union_left _ hn
        rw [processPiece, if_pos hmem, ih, range_succ_sdiff_mem n _ hn]
      · have hmem : n ∉ (runWorkerLoop sz target n st).downloadedPieces := by
          rw [runWorkerLoop_pieces]
          simp [Finset.mem_union, hn]
        have hnin : n ∉ Finset.range n \ st.downloadedPieces := by
          simp [Finset.mem_sdiff]
        have hne : (Finset.range (n + 1) \ st.downloadedPieces).Nonempty := by
          rw [range_succ_sdiff_not_mem n _ hn]
          exact Finset.insert_nonempty _ _
        rw [processPiece, if_neg hmem]
        simp only []
        rw [runWorkerLoop_runBytes, range_succ_sdiff_not_mem n _ hn,
          Finset.sum_insert hnin, if_pos (Finset.insert_nonempty _ _)]
        omega

theorem runWorkerLoop_progress (sz : Nat → Nat) (target n : Nat) (st : RunSt)
    (ht : 0 < target) :
    (runWorkerLoop sz target n st).progress
      = if (Finset.range n \ st.downloadedPieces).Nonempty then
          ((st.runBytes + ∑ i in Finset.range n \ st.downloadedPieces, sz i : Nat) : ℚ)
            / (target : ℚ) * 100
        else st.progress := by
  induction n with
  | zero => simp [runWorkerLoop]
  | succ n ih =>
      rw [runWorkerLoop_succ]
      by_cases hn : n ∈ st.downloadedPieces
      · have hmem : n ∈ (runWorkerLoop sz target n st).downloadedPieces := by
          rw [runWorkerLoop_pieces]; exact Finset.mem_union_left _ hn
        rw [processPiece, if_pos hmem, ih, range_succ_sdiff_mem n _ hn]
      · have hmem : n ∉ (runWorkerLoop sz target n st).downloadedPieces := by
          rw [runWorkerLoop_pieces]
          simp [Finset.mem_union, hn]
        have hnin : n ∉ Finset.range n \ st.downloadedPieces := by
          simp [Finset.mem_sdiff]
        have hne : (Finset.range (n + 1) \ st.downloadedPieces).Nonempty := by
          rw [range_succ_sdiff_not_mem n _ hn]
          exact Finset.insert_nonempty _ _
        rw [processPiece, if_neg hmem]
        simp only []
        rw [if_pos ht, runWorkerLoop_runBytes, range_succ_sdiff_not_mem n _ hn,
          Finset.sum_insert hnin, if_pos (Finset.insert_nonempty _ _)]
        have harg : st.runBytes + (∑ i in Finset.range n \ st.downloadedPieces, sz i) + sz n
            = st.runBytes + (sz n + ∑ i in Finset.range n \ st.downloadedPieces, sz i) := by
          omega
        rw [harg]

theorem runWorkerLoop_completed (sz : Nat → Nat) (target n : Nat) (st : RunSt) :
    (runWorkerLoop sz target n st).completed = st.completed := by
  induction n with
  | zero => simp [runWorkerLoop]
  | succ n ih =>
      rw [runWorkerLoop_succ]
      by_cases hn : n ∈ (runWorkerLoop sz target n st).downloadedPieces
      · rw [processPiece, if_pos hn, ih]
      · rw [processPiece, if_neg hn]
        simp only []
        exact ih

/-- C4 counterexample (claim as stated is false): a download of two pieces of
4 bytes each, resumed with `downloadedPieces = {0}` and a persisted
`downloadedSize = 4`, runs to the end of the scheduler: every piece ends up
downloaded and the completion branch fires, yet the final `progressPercent`
is 50, not 100, because the local byte counter of the run restarts at 0 and
progress is computed from it. -/
theorem C4_counterexample :
    (runWorker (fun _ => 4) 8 2
        { downloadedPieces := {0}, downloadedSize := 4, runBytes := 0,
          progress := 50, completed := false }).downloadedPieces = {0, 1} ∧
    (runWorker (fun _ => 4) 8 2
        { downloadedPieces := {0}, downloadedSize := 4, runBytes := 0,
          progress := 50, completed := false }).completed = true ∧
    (runWorker (fun _ => 4) 8 2
        { downloadedPieces := {0}, downloadedSize := 4, runBytes := 0,
          progress := 50, completed := false }).progress ≠ 100 := by
  refine ⟨by decide, by decide, ?_⟩
  have hp : (runWorker (fun _ => 4) 8 2
      { downloadedPieces := {0}, downloadedSize := 4, runBytes := 0,
        progress := 50, completed := false }).progress
      = ((0 + 4 : ℕ) : ℚ) / ((8 : ℕ) : ℚ) * 100 := rfl
  rw [hp]
  norm_num

/-- C4 (amended): in the monolithic scheduler (`app.py`,
`_async_download_worker`) an uninterrupted run started with
`downloadedPieces = D` skips every index of `D` and processes exactly the
remaining indices: afterwards `downloadedPieces = D ∪ {0..n-1}` and each
remaining piece's size was added to the byte counter exactly once
(`runBytes = Σ_{i < n, i ∉ D} size i`).  The final `progressPercent`,
however, equals this run's bytes over `targetBytes` — which is 100% only
when the run started from an empty `downloadedPieces` set.  (The layered
`DownloadWorker._download_worker` has no skip at all and re-adds
already-downloaded piece sizes.) -/
theorem C4_resume_accounting (sz : Nat → Nat) (target n : Nat) (D : Finset Nat)
    (s0 : Nat) (p0 : ℚ) (c0 : Bool) (ht : 0 < target)
    (hne : (Finset.range n \ D).Nonempty) :
    (runWorkerLoop sz target n ⟨D, s0, 0, p0, c0⟩).downloadedPieces
        = D ∪ Finset.range n ∧
    (runWorkerLoop sz target n ⟨D, s0, 0, p0, c0⟩).runBytes
        = ∑ i in Finset.range n \ D, sz i ∧
    (runWorkerLoop sz target n ⟨D, s0, 0, p0, c0⟩).downloadedSize
        = ∑ i in Finset.range n \ D, sz i ∧
    (runWorkerLoop sz target n ⟨D, s0, 0, p0, c0⟩).progress
        = ((∑ i in Finset.range n \ D, sz i : Nat) : ℚ) / (target : ℚ) * 100 := by
  refine ⟨runWorkerLoop_pieces sz target n _, ?_, ?_, ?_⟩
  · rw [runWorkerLoop_runBytes]
    simp
  · rw [runWorkerLoop_size]
    simp only [if_pos hne]
    simp
  · rw [runWorkerLoop_progress sz target n _ ht]
    simp only [if_pos hne]
    norm_num

/-- C4 witness: resuming the 2-piece download with `D = {0}` processes
exactly piece 1. -/
theorem C4_resume_accounting_witness :
    (0 < 8 ∧ (Finset.range 2 \ ({0} : Finset Nat)).Nonempty) ∧
    ((runWorkerLoop (fun _ => 4) 8 2 ⟨{0}, 4, 0, 50, false⟩).downloadedPieces
        = {0} ∪ Finset.range 2 ∧
     (runWorkerLoop (fun _ => 4) 8 2 ⟨{0}, 4, 0, 50, false⟩).runBytes
        = ∑ i in Finset.range 2 \ ({0} : Finset Nat), (fun _ => 4) i ∧
     (runWorkerLoop (fun _ => 4) 8 2 ⟨{0}, 4, 0, 50, false⟩).downloadedSize
        = ∑ i in Finset.range 2 \ ({0} : Finset Nat), (fun _ => 4) i ∧
     (runWorkerLoop (fun _ => 4) 8 2 ⟨{0}, 4, 0, 50, false⟩).progress
        = ((∑ i in Finset.range 2 \ ({0} : Finset Nat), (fun _ => 4) i : Nat) : ℚ)
            / (8 : ℚ) * 100) :=
  ⟨⟨by decide, by decide⟩,
   C4_resume_accounting (fun _ => 4) 8 2 {0} 4 50 false (by decide) (by decide)⟩

/-- C5 counterexample (claim as stated is false): parse a single-file torrent
with `totalSize = 5`, `pieceLength = 4` (two pieces, of sizes 4 and 1).  After
the layered scheduler (`download_worker.py`) records the first piece,
`progressPercent` is `1/2 * 100 = 50`, while
`downloadedBytes / targetBytes * 100 = 4/5 * 100 = 80`. -/
theorem C5_counterexample :
    (mkPieces 5 4 []).length = 2 ∧
    (wProcessPiece (mkPieces 5 4 []).length ⟨∅, 0, 0, 0⟩
        ((mkPieces 5 4 []).headD ⟨0, 0, [], false⟩)).downloadedSize = 4 ∧
    (wProcessPiece (mkPieces 5 4 []).length ⟨∅, 0, 0, 0⟩
        ((mkPieces 5 4 []).headD ⟨0, 0, [], false⟩)).progress
      ≠ ((wProcessPiece (mkPieces 5 4 []).length ⟨∅, 0, 0, 0⟩
            ((mkPieces 5 4 []).headD ⟨0, 0, [], false⟩)).downloadedSize : ℚ)
          / (5 : ℚ) * 100 := by
  refine ⟨by decide, by decide, ?_⟩
  have h1 : (wProcessPiece (mkPieces 5 4 []).length ⟨∅, 0, 0, 0⟩
      ((mkPieces 5 4 []).headD ⟨0, 0, [], false⟩)).downloadedSize = 4 := by decide
  have h2 : (wProcessPiece (mkPieces 5 4 []).length ⟨∅, 0, 0, 0⟩
      ((mkPieces 5 4 []).headD ⟨0, 0, [], false⟩)).progress
      = ((0 + 1 : ℕ) : ℚ) / ((2 : ℕ) : ℚ) * 100 := rfl
  rw [h1, h2]
  norm_num

/-- C5 (amended): in the monolithic scheduler (`app.py`), after recording any
piece the invariant `progressPercent = downloadedBytes / targetBytes * 100`
holds, where `downloadedBytes` is the byte counter of the current run and
`targetBytes` is `totalSize` for single-file or the selected files' total
length for multi-file downloads.  The layered worker
(`download_worker.py` lines 98-100) instead sets
`progressPercent = downloadedCount / totalPieces * 100`, which deviates from
the byte ratio whenever piece sizes are unequal. -/
theorem C5_progress_invariant (sz : Nat → Nat) (target : Nat) (st : RunSt) (i : Nat)
    (ht : 0 < target) (hi : i ∉ st.downloadedPieces) :
    (processPiece sz target st i).progress
      = ((processPiece sz target st i).downloadedSize : ℚ) / (target : ℚ) * 100 := by
  rw [processPiece, if_neg hi]
  simp only [if_pos ht]

/-- C5 witness: recording piece 0 of size 4 against a target of 8 bytes gives
progress `4/8*100`. -/
theorem C5_progress_invariant_witness :
    (0 < 8 ∧ (0 : Nat) ∉ (⟨∅, 0, 0, 0, false⟩ : RunSt).downloadedPieces) ∧
    (processPiece (fun _ => 4) 8 ⟨∅, 0, 0, 0, false⟩ 0).progress
      = ((processPiece (fun _ => 4) 8 ⟨∅, 0, 0, 0, false⟩ 0).downloadedSize : ℚ)
          / (8 : ℚ) * 100 :=
  ⟨⟨by decide, by decide⟩,
   C5_progress_invariant (fun _ => 4) 8 ⟨∅, 0, 0, 0, false⟩ 0 (by decide) (by decide)⟩

theorem dictInsert_append (k : String) (v : Bool) (d : List (String × Bool))
    (h : ∀ kv ∈ d, kv.1 ≠ k) : dictInsert k v d = d ++ [(k, v)] := by
  unfold dictInsert
  rw [if_neg]
  intro hany
  rw [List.any_eq_true] at hany
  obtain ⟨kv, hkv, hbeq⟩ := hany
  exact h kv hkv (by simpa using hbeq)

theorem buildFileSelections_aux (files : List TFile) :
    ∀ acc : List (String × Bool),
      (∀ kv ∈ acc, ∀ f ∈ files, kv.1 ≠ f.path) →
      (files.map TFile.path).Nodup →
      files.foldl (fun d f => dictInsert f.path f.selected d) acc
        = acc ++ files.map (fun f => (f.path, f.selected)) := by
  induction files with
  | nil => intro acc _ _; simp
  | cons f rest ih =>
      intro acc hdisj hnodup
      have hnodup2 : (f.path :: rest.map TFile.path).Nodup := by simpa using hnodup
      have hnotin : f.path ∉ rest.map TFile.path := (List.nodup_cons.1 hnodup2).1
      simp only [List.foldl_cons]
      rw [dictInsert_append f.path f.selected acc
        (fun kv hkv => hdisj kv hkv f (List.mem_cons_self f rest))]
      rw [ih (acc ++ [(f.path, f.selected)]) ?_ (List.nodup_cons.1 hnodup2).2]
      · simp
      · intro kv hkv g hg
        rcases List.mem_append.1 hkv with hin | hin
        · exact hdisj kv hin g (List.mem_cons_of_mem f hg)
        · have hkv2 : kv = (f.path, f.selected) := by simpa using hin
          subst hkv2
          intro he
          apply hnotin
          rw [show f.path = g.path from he]
          exact List.mem_map_of_mem TFile.path hg

theorem buildFileSelections_eq (files : List TFile)
    (hnodup : (files.map TFile.path).Nodup) :
    buildFileSelections files = files.map fun f => (f.path, f.selected) := by
  unfold buildFileSelections
  rw [buildFileSelections_aux files [] (by simp) hnodup]
  simp

theorem dictLookup_pairs (files : List TFile) (f : TFile)
    (hnodup : (files.map TFile.path).Nodup) (hf : f ∈ files) :
    dictLookup (files.map fun g => (g.path, g.selected)) f.path = some f.selected := by
  induction files with
  | nil => cases hf
  | cons g rest ih =>
      have hnodup2 : (g.path :: rest.map TFile.path).Nodup := by simpa using hnodup
      rcases List.mem_cons.1 hf with rfl | hf2
      · unfold dictLookup
        rw [List.map_cons, List.find?_cons_of_pos _ (by simp)]
        rfl
      · have hgf : (g.path == f.path) = false := by
          have hnotin : g.path ∉ rest.map TFile.path := (List.nodup_cons.1 hnodup2).1
          simp only [beq_eq_false_iff_ne, ne_eq]
          intro he
          exact hnotin (he ▸ List.mem_map_of_mem TFile.path hf2)
        unfold dictLookup
        rw [List.map_cons, List.find?_cons_of_neg _ (by simpa using hgf)]
        exact ih (List.nodup_cons.1 hnodup2).2 hf2

/-- C6 counterexample (claim as stated is false): a download with two files
sharing the path "a" but with different `selected` flags.  `save_state`
keys the selection dict by path, so the second file's flag overwrites the
first; after the round trip both files are selected — the first file's flag
no longer equals the original. -/
theorem C6_counterexample :
    (load_state (freshDownload c6Dup) (save_state c6Dup 0)).files.map TFile.selected
      ≠ c6Dup.files.map TFile.selected := by
  decide

/-- C6 (amended): for every Download whose file paths are pairwise distinct
(the selection dict is keyed by path, so files sharing a path collapse to
one entry), saving the per-download state and loading it into a freshly
constructed Download with the same descriptor restores `downloadedPieces`,
`downloadedBytes`, the `completed` flag, and every file's `selected` flag. -/
theorem C6_roundtrip (d : DownloadSt) (now : ℚ)
    (hnodup : (d.files.map TFile.path).Nodup) :
    (load_state (freshDownload d) (save_state d now)).downloadedPieces
        = d.downloadedPieces ∧
    (load_state (freshDownload d) (save_state d now)).downloadedSize
        = d.downloadedSize ∧
    (load_state (freshDownload d) (save_state d now)).completed = d.completed ∧
    (load_state (freshDownload d) (save_state d now)).files.map
        (fun f => (f.path, f.selected))
      = d.files.map fun f => (f.path, f.selected) := by
  refine ⟨?_, rfl, rfl, ?_⟩
  · show ((save_state d now).downloaded_pieces).toFinset = d.downloadedPieces
    unfold save_state
    exact Finset.sort_toFinset _ _
  · show ((freshDownload d).files.map fun f =>
        match dictLookup (save_state d now).file_selections f.path with
        | some b => { f with selected := b }
        | none => f).map (fun f => (f.path, f.selected))
      = d.files.map fun f => (f.path, f.selected)
    unfold freshDownload save_state
    simp only [buildFileSelections_eq d.files hnodup, List.map_map]
    refine List.map_congr_left ?_
    intro f hf
    have hl := dictLookup_pairs d.files f hnodup hf
    simp [Function.comp, hl]

/-- C6 witness: a download with two distinct file paths round-trips. -/
theorem C6_roundtrip_witness :
    ((c6Good.files.map TFile.path).Nodup) ∧
    ((load_state (freshDownload c6Good) (save_state c6Good 0)).downloadedPieces
        = c6Good.downloadedPieces ∧
     (load_state (freshDownload c6Good) (save_state c6Good 0)).downloadedSize
        = c6Good.downloadedSize ∧
     (load_state (freshDownload c6Good) (save_state c6Good 0)).completed
        = c6Good.completed ∧
     (load_state (freshDownload c6Good) (save_state c6Good 0)).files.map
        (fun f => (f.path, f.selected))
        = c6Good.files.map fun f => (f.path, f.selected)) :=
  ⟨by decide, C6_roundtrip c6Good 0 (by decide)⟩

theorem parse_torrent_multi (info : InfoDict) (pl : Nat) (ph : List Nat)
    (fs : List FileInfo) (stem : String)
    (hpl : info.pieceLength = some pl) (hpl0 : 0 < pl)
    (hph : info.pieces = some ph) (hfs : info.files = some fs) :
    parse_torrent (some info) stem = some
      { name := info.name.getD "multi_file_torrent"
        totalSize := (fs.map FileInfo.length).sum
        pieceLength := pl
        pieces := mkPieces (fs.map FileInfo.length).sum pl ph
        files := mkFiles fs
        isMultiFile := true } := by
  have hne : ¬ pl = 0 := by omega
  simp [parse_torrent, hpl, hph, hfs, hne]

theorem parse_torrent_single (info : InfoDict) (pl : Nat) (ph : List Nat)
    (l : Nat) (stem : String)
    (hpl : info.pieceLength = some pl) (hpl0 : 0 < pl)
    (hph : info.pieces = some ph) (hfs : info.files = none)
    (hl : info.length = some l) :
    parse_torrent (some info) stem = some
      { name := info.name.getD stem
        totalSize := l
        pieceLength := pl
        pieces := mkPieces l pl ph
        files := []
        isMultiFile := false } := by
  have hne : ¬ pl = 0 := by omega
  simp [parse_torrent, hpl, hph, hfs, hl, hne]

/-- C7 counterexample (claim as stated is false): `c7Info` declares a
single file of 10 bytes with `pieceLength = 16384` (so one piece) and a
`pieces` string of 5 bytes — not a multiple of 20 and shorter than
`numPieces * 20 = 20`.  Parsing does NOT fail: it produces a descriptor
(whose single piece carries the 5-byte slice as its hash). -/
theorem C7_counterexample :
    ((c7Info.pieces.getD []).length % 20 ≠ 0 ∧
     (c7Info.pieces.getD []).length < numPieces 10 16384 * 20) ∧
    (parse_torrent (some c7Info) "f").isSome = true := by
  decide

/-- C7 (amended): the parser performs no validation of the `pieces` string
length.  Whenever `piece length` and `pieces` are present, `piece length` is
positive, and either `files` or `length` is present, parsing succeeds for
ANY `pieces` byte string, and each piece's `expectedHash` is the possibly
short (or empty) slice `pieces[20*i : 20*i + 20]`. -/
theorem C7_no_pieces_validation (info : InfoDict) (pl : Nat) (ph : List Nat)
    (stem : String)
    (hpl : info.pieceLength = some pl) (hpl0 : 0 < pl)
    (hph : info.pieces = some ph)
    (hbody : info.files.isSome = true ∨ info.length.isSome = true) :
    ∃ t, parse_torrent (some info) stem = some t ∧
      t.pieces.length = numPieces t.totalSize pl ∧
      ∀ i (h : i < t.pieces.length),
        (t.pieces.get ⟨i, h⟩).hash = (ph.drop (i * 20)).take 20 := by
  rcases hfs : info.files with _ | fs
  · rcases hl : info.length with _ | l
    · exfalso
      rcases hbody with hb | hb
      · rw [hfs] at hb
        simp at hb
      · rw [hl] at hb
        simp at hb
    · refine ⟨_, parse_torrent_single info pl ph l stem hpl hpl0 hph hfs hl, ?_, ?_⟩
      · exact mkPieces_length l pl ph
      · intro i h
        rw [mkPieces_get]
  · refine ⟨_, parse_torrent_multi info pl ph fs stem hpl hpl0 hph hfs, ?_, ?_⟩
    · exact mkPieces_length _ pl ph
    · intro i h
      rw [mkPieces_get]

/-- C7 witness: the parser accepts `c7Info` despite its malformed `pieces`
string. -/
theorem C7_no_pieces_validation_witness :
    (c7Info.pieceLength = some 16384 ∧ 0 < 16384 ∧ c7Info.pieces = some [1, 2, 3, 4, 5] ∧
      (c7Info.files.isSome = true ∨ c7Info.length.isSome = true)) ∧
    (∃ t, parse_torrent (some c7Info) "f" = some t ∧
      t.pieces.length = numPieces t.totalSize 16384 ∧
      ∀ i (h : i < t.pieces.length),
        (t.pieces.get ⟨i, h⟩).hash = (([1, 2, 3, 4, 5] : List Nat).drop (i * 20)).take 20) :=
  ⟨⟨rfl, by decide, rfl, Or.inr rfl⟩,
   C7_no_pieces_validation c7Info 16384 [1, 2, 3, 4, 5] "f" rfl (by decide) rfl (Or.inr rfl)⟩

theorem mkFilesAux_length (fs : List FileInfo) :
    ∀ off, (mkFilesAux off fs).length = fs.length := by
  induction fs with
  | nil => intro off; rfl
  | cons f rest ih =>
      intro off
      simp [mkFilesAux, ih]

theorem mkFilesAux_map_len (fs : List FileInfo) :
    ∀ off, (mkFilesAux off fs).map TFile.length = fs.map FileInfo.length := by
  induction fs with
  | nil => intro off; rfl
  | cons f rest ih =>
      intro off
      simp [mkFilesAux, ih]

theorem mkFilesAux_get_length (fs : List FileInfo) :
    ∀ off i (h : i < (mkFilesAux off fs).length) (h2 : i < fs.length),
      ((mkFilesAux off fs).get ⟨i, h⟩).length = (fs.get ⟨i, h2⟩).length := by
  induction fs with
  | nil => intro off i h h2; cases h2
  | cons f rest ih =>
      intro off i h h2
      cases i with
      | zero => rfl
      | succ i => exact ih (off + f.length) i _ (Nat.lt_of_succ_lt_succ h2)

theorem mkFilesAux_get_offset (fs : List FileInfo) :
    ∀ off i (h : i < (mkFilesAux off fs).length),
      ((mkFilesAux off fs).get ⟨i, h⟩).offset
        = off + ((fs.map FileInfo.length).take i).sum := by
  induction fs with
  | nil => intro off i h; rw [mkFilesAux_length] at h; cases h
  | cons f rest ih =>
      intro off i h
      cases i with
      | zero => simp [mkFilesAux]
      | succ i =>
          have h2 : i < (mkFilesAux (off + f.length) rest).length := by
            rw [mkFilesAux_length] at h ⊢
            exact Nat.lt_of_succ_lt_succ h
          calc ((mkFilesAux off (f :: rest)).get ⟨i + 1, h⟩).offset
              = ((mkFilesAux (off + f.length) rest).get ⟨i, h2⟩).offset := rfl
            _ = off + f.length + ((rest.map FileInfo.length).take i).sum := ih _ i h2
            _ = off + (((f :: rest).map FileInfo.length).take (i + 1)).sum := by
                simp [List.take_succ_cons]
                omega

/-- C8: for every multi-file torrent the parser accepts, the file entries
satisfy `sum of lengths = totalSize`, the first `byteOffset` is 0, and
`byteOffset[i] + length[i] = byteOffset[i+1]` for every adjacent pair. -/
theorem C8_file_offsets (info : InfoDict) (pl : Nat) (ph : List Nat)
    (fs : List FileInfo) (stem : String) (t : TorrentInfoM)
    (hpl : info.pieceLength = some pl) (hpl0 : 0 < pl)
    (hph : info.pieces = some ph) (hfs : info.files = some fs)
    (hp : parse_torrent (some info) stem = some t) :
    ((t.files.map TFile.length).sum = t.totalSize) ∧
    (∀ h : 0 < t.files.length, (t.files.get ⟨0, h⟩).offset = 0) ∧
    (∀ i (hi1 : i < t.files.length) (hi2 : i + 1 < t.files.length),
      (t.files.get ⟨i, hi1⟩).offset + (t.files.get ⟨i, hi1⟩).length
        = (t.files.get ⟨i + 1, hi2⟩).offset) := by
  have hform := parse_torrent_multi info pl ph fs stem hpl hpl0 hph hfs
  rw [hp] at hform
  have ht := Option.some.inj hform
  subst ht
  refine ⟨?_, ?_, ?_⟩
  · show ((mkFiles fs).map TFile.length).sum = (fs.map FileInfo.length).sum
    rw [mkFiles, mkFilesAux_map_len]
  · intro h
    show ((mkFilesAux 0 fs).get ⟨0, h⟩).offset = 0
    rw [mkFilesAux_get_offset]
    simp
  · intro i hi1 hi2
    show ((mkFilesAux 0 fs).get ⟨i, hi1⟩).offset + ((mkFilesAux 0 fs).get ⟨i, hi1⟩).length
        = ((mkFilesAux 0 fs).get ⟨i + 1, hi2⟩).offset
    have hlen : i < fs.length := by
      have := hi1
      rw [mkFiles, mkFilesAux_length] at this
      exact this
    rw [mkFilesAux_get_offset, mkFilesAux_get_offset, mkFilesAux_get_length fs 0 i hi1 hlen]
    have hmap : i < (fs.map FileInfo.length).length := by
      rw [List.length_map]
      exact hlen
    rw [List.sum_take_succ _ i hmap]
    simp only [List.getElem_map, List.get_eq_getElem]
    omega

/-- C8 witness: the two-file torrent `c8Info` parses to `c8T`, whose offsets
form the prefix sums 0 and 3 over lengths 3 and 5, summing to 8. -/
theorem C8_file_offsets_witness :
    parse_torrent (some c8Info) "s" = some c8T ∧
    (((c8T.files.map TFile.length).sum = c8T.totalSize) ∧
     (∀ h : 0 < c8T.files.length, (c8T.files.get ⟨0, h⟩).offset = 0) ∧
     (∀ i (hi1 : i < c8T.files.length) (hi2 : i + 1 < c8T.files.length),
        (c8T.files.get ⟨i, hi1⟩).offset + (c8T.files.get ⟨i, hi1⟩).length
          = (c8T.files.get ⟨i + 1, hi2⟩).offset)) :=
  ⟨by decide,
   C8_file_offsets c8Info 4 [] [⟨["a"], 3⟩, ⟨["d", "b"], 5⟩] "s" c8T rfl (by decide) rfl rfl
     (by decide)⟩

/-- C9 counterexample (claim as stated is false): two selected files "a" and
"b"; writing "a" raises while writing "b" would succeed.  Because the
exception handler wraps the whole loop, NOTHING is written — in particular
the later file "b" is not written, contradicting the claim that one file's
failure does not prevent subsequent files from being written. -/
theorem C9_counterexample :
    writeFilesReal (fun p => p == "a")
        [{ path := "a", length := 1, offset := 0, downloaded := false, selected := true },
         { path := "b", length := 1, offset := 1, downloaded := false, selected := true }]
      = [] ∧
    (fun p => p == "a") "b" = false := by
  decide

/-- C9 (amended): during final assembly only selected files are written, and
the files written are exactly the longest prefix of the selected files whose
writes succeed: the first failing write aborts the loop (the exception is
caught outside the `for`), so no later file — selected or not — is written. -/
theorem C9_write_prefix (fails : String → Bool) (files : List TFile) :
    writeFilesReal fails files
      = (((files.filter fun f => f.selected).map TFile.path).takeWhile
          fun p => !fails p) := by
  induction files with
  | nil => rfl
  | cons f rest ih =>
      cases hsel : f.selected with
      | false => simp [writeFilesReal, hsel, ih]
      | true =>
          cases hfail : fails f.path with
          | true => simp [writeFilesReal, hsel, hfail]
          | false => simp [writeFilesReal, hsel, hfail, ih]

/-- C10: parsing the same torrent a second time is idempotent at the client
interface: when the derived id is already in the registry,
`parse_torrent` returns that id with success, constructs no new `Download`,
and leaves the registry — hence the existing Download and all its progress
fields — unchanged. -/
theorem C10_parse_idempotent (idOf : InfoDict → String)
    (mkD : String → TorrentInfoM → DownloadSt) (reg : List (String × DownloadSt))
    (info : InfoDict) (stem : String) (d : DownloadSt)
    (h : lookupD reg (idOf info) = some d) :
    client_parse_torrent idOf mkD reg (some info) stem
      = (some (idOf info), true, reg) := by
  simp [client_parse_torrent, h]

/-- C10 witness: a registry already holding the id returns it unchanged. -/
theorem C10_parse_idempotent_witness :
    lookupD [("id1", sampleCompleted)] ((fun _ => "id1") c7Info) = some sampleCompleted ∧
    client_parse_torrent (fun _ => "id1") (fun _ _ => sampleCompleted)
        [("id1", sampleCompleted)] (some c7Info) "f"
      = (some ((fun _ => "id1") c7Info), true, [("id1", sampleCompleted)]) :=
  ⟨rfl,
   C10_parse_idempotent (fun _ => "id1") (fun _ _ => sampleCompleted)
     [("id1", sampleCompleted)] c7Info "f" sampleCompleted rfl⟩

end BitTorrentMe
